import Mathlib

/-!
Shallow embedding of `src/lib/src/chunk_processor.rs` (rdedup chunk processor).

The worker loop `ChunkProcessor::run` receives `Message`s from a queue, hashes
the payload, probes generations for an existing chunk (newest→oldest, then the
newest once more), migrates an old chunk by rename, or transforms
(compress/encrypt) and writes a new chunk, and finally sends `(sg_id, digest)`
on the response channel of the message.

Modelling choices:
  * `SGData` payloads are `List Nat` byte buffers.
  * A generation string (`gen.to_string()`) is modelled by a `Nat`; the
    generation list is ordered oldest first, last = current (as in the source,
    where `gen_strings.last()` is the write destination).
  * A chunk path `chunk_path_by_digest(digest, gen_str)` is the pair
    `(digest, gen)`; the repo prefix is constant so path equality is pairwise
    equality.  `chunk_rel_path_by_digest` resolves to the same `(digest, gen)`
    cell of the store.
  * The filesystem is an association list `Path ↦ SG`.
  * The injected trait objects (hasher, compressor, encrypter) are parameters
    in a `Ctx`; fallible ones return `Except Unit SG` (Rust `Result`).
  * The outcomes of the fallible asynchronous calls `aio.rename(..).wait()`,
    `aio.read_metadata(..).wait()` and of `response_tx.send(..)` are oracle
    booleans, since their failure is environmental (races, dropped receiver).
  * Processing one message produces a trace of `Event`s.  Each event that
    stands for an `aio` future records whether the source called `.wait()` on
    it (`awaited`): `rename` and `read_metadata` are waited in the source,
    `write_checked_idempotent` is not.  `chunk_path.exists()` is a plain
    synchronous `std::path` call in the source and gets a `probe` event.
  * A Rust panic, a failed unwrap or a failed expect sets the
    `panicked` flag and stops the processing of the message (and the loop).
-/

namespace Rdedup

/-- Scatter-gather byte buffer (`SGData`). -/
abbrev SG := List Nat

/-- A chunk path: `(digest value, generation string)`. -/
abbrev Path := Nat × Nat

/-- Modelled from the spec: `DataType` (an enum defined outside this source
file) is used only through its two derived boolean policies
`should_compress()` and `should_encrypt()`. -/
structure DataType where
  shouldCompress : Bool
  shouldEncrypt : Bool
deriving DecidableEq, Repr

/-- The `Message` struct: `(sg_id, payload)`, data type, response channel
(channels are identified by a `Nat`). -/
structure Message where
  sgId : Nat
  sg : SG
  dataType : DataType
  respChan : Nat
deriving DecidableEq, Repr

/-- The injected collaborators: `hasher.calculate_digest`,
`compressor.compress`, `encrypter.encrypt` (the latter two return `Result`). -/
structure Ctx where
  hash : SG → Nat
  compress : SG → Except Unit SG
  encrypt : SG → Nat → Except Unit SG

/-- Environmental outcomes of the fallible calls made while processing one
message: whether `aio.rename(..).wait()` returns `Err`, whether the follow-up
`aio.read_metadata(dst).wait()` returns `Err`, and whether
`response_tx.send(..)` fails. -/
structure AioOracle where
  renameFails : Bool
  metaFails : Bool
  sendFails : Bool
deriving DecidableEq, Repr

/-- The store: an association list from paths to chunk contents. -/
structure FSState where
  files : List (Path × SG)
deriving DecidableEq, Repr

/-- Lookup in an association list, first binding wins. -/
def lookupList : List (Path × SG) → Path → Option SG
  | [], _ => none
  | (q, c) :: rest, p => if q = p then some c else lookupList rest p

/-- Content stored at a path, if any. -/
def FSState.lookup (fs : FSState) (p : Path) : Option SG :=
  lookupList fs.files p

/-- `chunk_path.exists()`. -/
def FSState.hasFile (fs : FSState) (p : Path) : Bool :=
  (fs.lookup p).isSome

/-- Effect of a successful `aio.rename(src, dst)`: the chunk moves from `src`
to `dst`.  If `src` is absent nothing happens. -/
def FSState.renameFile (fs : FSState) (src dst : Path) : FSState :=
  match fs.lookup src with
  | none => fs
  | some c =>
      ⟨(dst, c) :: fs.files.filter (fun e => !(e.1 == src) && !(e.1 == dst))⟩

/-- Effect of `aio.write_checked_idempotent(path, sg)` on the store: create
the file if absent; rewriting an existing chunk leaves the store unchanged. -/
def FSState.writeIdempotent (fs : FSState) (p : Path) (c : SG) : FSState :=
  if fs.hasFile p then fs else ⟨(p, c) :: fs.files⟩

/-- One observable step of processing a message.  `awaited` records whether
the source code called `.wait()` on the corresponding `aio` future. -/
inductive Event
  | probe (p : Path)
  | rename (src dst : Path) (awaited : Bool)
  | readMeta (p : Path) (awaited : Bool)
  | write (p : Path) (data : SG) (awaited : Bool)
  | send (chan sgId dg : Nat)
deriving DecidableEq, Repr

/-- Result of the dedup scan loop. -/
structure LoopOut where
  events : List Event
  fs : FSState
  found : Bool
  panicked : Bool
deriving Repr

/-- The dedup scan of `ChunkProcessor::run`: iterate the probe list, check
`chunk_path.exists()`; on the first hit, either do nothing (current
generation) or rename into the current generation, absorbing a failed rename
when `read_metadata(dst)` succeeds and panicking when it too fails; then
`break`. -/
def probeLoop (orc : AioOracle) (digest lastGen : Nat) (fs : FSState) :
    List Nat → LoopOut
  | [] => ⟨[], fs, false, false⟩
  | g :: rest =>
    let p : Path := (digest, g)
    if fs.hasFile p then
      if g = lastGen then
        ⟨[.probe p], fs, true, false⟩
      else
        let dst : Path := (digest, lastGen)
        if orc.renameFails then
          ⟨[.probe p, .rename p dst true, .readMeta dst true], fs, true,
            orc.metaFails⟩
        else
          ⟨[.probe p, .rename p dst true], fs.renameFile p dst, true, false⟩
    else
      let out := probeLoop orc digest lastGen fs rest
      ⟨.probe p :: out.events, out.fs, out.found, out.panicked⟩

/-- The transform sequence of the not-found branch: compress iff
`should_compress`, then encrypt (with the digest as associated input) iff
`should_encrypt`; each `.unwrap()` propagates the error (a panic). -/
def transformChunk (ctx : Ctx) (dt : DataType) (digest : Nat) (sg : SG) :
    Except Unit SG :=
  match (if dt.shouldCompress then ctx.compress sg else .ok sg) with
  | .error e => .error e
  | .ok sg1 => if dt.shouldEncrypt then ctx.encrypt sg1 digest else .ok sg1

/-- Result of processing one message. -/
structure StepResult where
  events : List Event
  fs : FSState
  panicked : Bool
deriving Repr

/-- Processing of one received `Message` by `ChunkProcessor::run`:
compute the digest; probe `gen_strings.iter().rev().chain([&last_gen_str])`;
if not found, transform and issue the idempotent write (not awaited); send
`(sg_id, digest)` on the response channel.  `gen_strings.last().unwrap()`
panics when the generation list is empty. -/
def processMessage (ctx : Ctx) (genStrings : List Nat) (orc : AioOracle)
    (fs : FSState) (m : Message) : StepResult :=
  match genStrings.getLast? with
  | none => ⟨[], fs, true⟩
  | some lastGen =>
    let digest := ctx.hash m.sg
    let probeOrder := genStrings.reverse ++ [lastGen]
    let out := probeLoop orc digest lastGen fs probeOrder
    if out.panicked then ⟨out.events, out.fs, true⟩
    else if out.found then
      if orc.sendFails then ⟨out.events, out.fs, true⟩
      else ⟨out.events ++ [.send m.respChan m.sgId digest], out.fs, false⟩
    else
      match transformChunk ctx m.dataType digest m.sg with
      | .error _ => ⟨out.events, out.fs, true⟩
      | .ok sgw =>
        let wpath : Path := (digest, lastGen)
        let fs2 := out.fs.writeIdempotent wpath sgw
        let evs := out.events ++ [.write wpath sgw false]
        if orc.sendFails then ⟨evs, fs2, true⟩
        else ⟨evs ++ [.send m.respChan m.sgId digest], fs2, false⟩

/-- `ChunkProcessor::new`: asserts `generations.len() >= 1` and otherwise
stores its arguments; `none` models the failed assertion. -/
def chunkProcessorNew (generations : List Nat) : Option (List Nat) :=
  if generations.length ≥ 1 then some generations else none

/-- The worker loop over the queue: the queue is a list of messages (each
with the environmental oracle for its fallible calls); the empty list is the
closed-and-drained queue, on which `rx.recv()` returns `Err` and the loop
returns.  A panic stops the loop.  Returns the per-message event traces, the
final store and whether the worker panicked. -/
def runLoop (ctx : Ctx) (genStrings : List Nat) (fs : FSState) :
    List (Message × AioOracle) → List (List Event) × FSState × Bool
  | [] => ([], fs, false)
  | (m, orc) :: rest =>
    let r := processMessage ctx genStrings orc fs m
    if r.panicked then ([r.events], r.fs, true)
    else
      let (evss, fs', pan) := runLoop ctx genStrings r.fs rest
      (r.events :: evss, fs', pan)

/-- Gens probed (in order) in a trace. -/
def probedGens : List Event → List Nat
  | [] => []
  | .probe p :: rest => p.2 :: probedGens rest
  | _ :: rest => probedGens rest

/-- Renames attempted (in order) in a trace. -/
def renames : List Event → List (Path × Path)
  | [] => []
  | .rename s d _ :: rest => (s, d) :: renames rest
  | _ :: rest => renames rest

/-- Metadata reads (in order) in a trace. -/
def readMetas : List Event → List Path
  | [] => []
  | .readMeta p _ :: rest => p :: readMetas rest
  | _ :: rest => readMetas rest

/-- Writes issued (in order) in a trace. -/
def writes : List Event → List (Path × SG)
  | [] => []
  | .write p c _ :: rest => (p, c) :: writes rest
  | _ :: rest => writes rest

/-- Responses sent (in order) in a trace: `(channel, sg_id, digest)`. -/
def sends : List Event → List (Nat × Nat × Nat)
  | [] => []
  | .send ch i d :: rest => (ch, i, d) :: sends rest
  | _ :: rest => sends rest

/-- `true` iff every `aio` operation in the trace was awaited (`.wait()`)
before the worker proceeded. -/
def allAioAwaited : List Event → Bool
  | [] => true
  | .rename _ _ a :: rest => a && allAioAwaited rest
  | .readMeta _ a :: rest => a && allAioAwaited rest
  | .write _ _ a :: rest => a && allAioAwaited rest
  | _ :: rest => allAioAwaited rest

/-- The awaiting discipline the source actually follows: `rename` and
`read_metadata` futures are waited on, the idempotent write future is not. -/
def awaitDiscipline : List Event → Bool
  | [] => true
  | .rename _ _ a :: rest => a && awaitDiscipline rest
  | .readMeta _ a :: rest => a && awaitDiscipline rest
  | .write _ _ a :: rest => !a && awaitDiscipline rest
  | _ :: rest => awaitDiscipline rest

/-- The spec-side probe sequence: walk a candidate generation list in order,
keeping every generation up to and including the first one whose chunk path
exists. -/
def probeUpToHit (fs : FSState) (digest : Nat) : List Nat → List Nat
  | [] => []
  | g :: rest =>
      if fs.hasFile (digest, g) then [g] else g :: probeUpToHit fs digest rest

/-- The first generation in a candidate list whose chunk path exists. -/
def firstHit (fs : FSState) (digest : Nat) : List Nat → Option Nat
  | [] => none
  | g :: rest =>
      if fs.hasFile (digest, g) then some g else firstHit fs digest rest

/-- The trace of a run of pure existence probes at digest `d`. -/
def probeEvents (d : Nat) : List Nat → List Event
  | [] => []
  | g :: rest => Event.probe (d, g) :: probeEvents d rest

/-! ### Helper lemmas about the trace extractors -/

lemma probeEvents_nil (d : Nat) : probeEvents d [] = [] := rfl

lemma probeEvents_cons (d g : Nat) (rest : List Nat) :
    probeEvents d (g :: rest) = Event.probe (d, g) :: probeEvents d rest := rfl

lemma probedGens_append (a b : List Event) :
    probedGens (a ++ b) = probedGens a ++ probedGens b := by
  induction a with
  | nil => rfl
  | cons e rest ih => cases e <;> simp [probedGens, ih]

lemma renames_append (a b : List Event) :
    renames (a ++ b) = renames a ++ renames b := by
  induction a with
  | nil => rfl
  | cons e rest ih => cases e <;> simp [renames, ih]

lemma readMetas_append (a b : List Event) :
    readMetas (a ++ b) = readMetas a ++ readMetas b := by
  induction a with
  | nil => rfl
  | cons e rest ih => cases e <;> simp [readMetas, ih]

lemma writes_append (a b : List Event) :
    writes (a ++ b) = writes a ++ writes b := by
  induction a with
  | nil => rfl
  | cons e rest ih => cases e <;> simp [writes, ih]

lemma sends_append (a b : List Event) :
    sends (a ++ b) = sends a ++ sends b := by
  induction a with
  | nil => rfl
  | cons e rest ih => cases e <;> simp [sends, ih]

lemma awaitDiscipline_append (a b : List Event) :
    awaitDiscipline (a ++ b) = (awaitDiscipline a && awaitDiscipline b) := by
  induction a with
  | nil => rfl
  | cons e rest ih => cases e <;> simp [awaitDiscipline, ih, Bool.and_assoc]

/-- A pure probe list contributes exactly its generations to `probedGens`. -/
lemma probedGens_probeEvents (d : Nat) (l : List Nat) :
    probedGens (probeEvents d l) = l := by
  induction l with
  | nil => rfl
  | cons g rest ih => simp [probeEvents, probedGens, ih]

lemma renames_probeEvents (d : Nat) (l : List Nat) :
    renames (probeEvents d l) = [] := by
  induction l with
  | nil => rfl
  | cons g rest ih => simp [probeEvents, renames, ih]

lemma readMetas_probeEvents (d : Nat) (l : List Nat) :
    readMetas (probeEvents d l) = [] := by
  induction l with
  | nil => rfl
  | cons g rest ih => simp [probeEvents, readMetas, ih]

lemma writes_probeEvents (d : Nat) (l : List Nat) :
    writes (probeEvents d l) = [] := by
  induction l with
  | nil => rfl
  | cons g rest ih => simp [probeEvents, writes, ih]

lemma sends_probeEvents (d : Nat) (l : List Nat) :
    sends (probeEvents d l) = [] := by
  induction l with
  | nil => rfl
  | cons g rest ih => simp [probeEvents, sends, ih]

lemma awaitDiscipline_probeEvents (d : Nat) (l : List Nat) :
    awaitDiscipline (probeEvents d l) = true := by
  induction l with
  | nil => rfl
  | cons g rest ih => simp [probeEvents, awaitDiscipline, ih]

/-! ### Helper lemmas about the store -/

lemma lookupList_filter_ne (src dst p : Path) (hs : p ≠ src) (hd : p ≠ dst) :
    ∀ l : List (Path × SG),
      lookupList (l.filter fun e => !(e.1 == src) && !(e.1 == dst)) p =
        lookupList l p := by
  intro l
  induction l with
  | nil => rfl
  | cons e rest ih =>
    obtain ⟨q, c⟩ := e
    by_cases hq : q = p
    · subst hq
      have h1 : (q == src) = false := by simp [hs]
      have h2 : (q == dst) = false := by simp [hd]
      simp [List.filter, h1, h2, lookupList]
    · by_cases hkeep : (!(q == src) && !(q == dst)) = true
      · simp [List.filter, hkeep, lookupList, hq, ih]
      · simp [List.filter, hkeep, lookupList, hq, ih]

/-- Renaming `src → dst` does not touch any other path. -/
lemma FSState.lookup_renameFile_ne (fs : FSState) (src dst p : Path)
    (hs : p ≠ src) (hd : p ≠ dst) :
    (fs.renameFile src dst).lookup p = fs.lookup p := by
  unfold FSState.renameFile
  cases h : fs.lookup src with
  | none => rfl
  | some c =>
    have hdp : dst ≠ p := fun hh => hd hh.symm
    show lookupList ((dst, c) :: _) p = _
    simp only [lookupList, if_neg hdp]
    exact lookupList_filter_ne src dst p hs hd fs.files

/-- The idempotent write does not touch any other path. -/
lemma FSState.lookup_writeIdempotent_ne (fs : FSState) (q : Path) (c : SG)
    (p : Path) (h : p ≠ q) :
    (fs.writeIdempotent q c).lookup p = fs.lookup p := by
  unfold FSState.writeIdempotent
  by_cases hf : fs.hasFile q = true
  · simp [hf]
  · have hqp : q ≠ p := fun hh => h hh.symm
    simp only [hf]
    show lookupList ((q, c) :: fs.files) p = _
    simp [lookupList, if_neg hqp, FSState.lookup]

/-! ### Structural lemmas about the dedup scan -/

/-- When no generation holds the chunk, the scan probes everything, changes
nothing and reports not-found. -/
lemma probeLoop_of_firstHit_none (orc : AioOracle) (d lg : Nat) (fs : FSState)
    {l : List Nat} (h : firstHit fs d l = none) :
    probeLoop orc d lg fs l = ⟨probeEvents d l, fs, false, false⟩ := by
  induction l with
  | nil => rfl
  | cons g rest ih =>
    by_cases hg : fs.hasFile (d, g) = true
    · simp [firstHit, hg] at h
    · have hrest : firstHit fs d rest = none := by
        simpa [firstHit, hg] using h
      simp [probeLoop, probeEvents_cons, hg, ih hrest]

/-- When the first generation holding the chunk is the current one, the scan
stops there with nothing but probes in the trace and the store untouched. -/
lemma probeLoop_of_firstHit_last (orc : AioOracle) (d lg : Nat) (fs : FSState)
    {l : List Nat} (h : firstHit fs d l = some lg) :
    ∃ pre : List Nat,
      probeLoop orc d lg fs l =
        ⟨probeEvents d pre ++ [Event.probe (d, lg)], fs, true, false⟩ := by
  induction l with
  | nil => simp [firstHit] at h
  | cons g rest ih =>
    by_cases hg : fs.hasFile (d, g) = true
    · have hgl : g = lg := by simpa [firstHit, hg] using h
      subst hgl
      exact ⟨[], by simp [probeLoop, probeEvents_nil, hg]⟩
    · have hrest : firstHit fs d rest = some lg := by
        simpa [firstHit, hg] using h
      obtain ⟨pre, hpre⟩ := ih hrest
      exact ⟨g :: pre, by simp [probeLoop, probeEvents_cons, hg, hpre]⟩

/-- When the first generation holding the chunk is an older one, the scan
stops there and performs exactly the migration step dictated by the oracle:
one rename attempt; on failure one metadata read of the destination, fatal
iff that read also fails. -/
lemma probeLoop_of_firstHit_ne (orc : AioOracle) (d lg : Nat) (fs : FSState)
    {l : List Nat} {g : Nat} (h : firstHit fs d l = some g) (hne : g ≠ lg) :
    ∃ pre : List Nat,
      probeLoop orc d lg fs l =
        ⟨probeEvents d pre ++
            ([Event.probe (d, g), Event.rename (d, g) (d, lg) true] ++
              (if orc.renameFails then [Event.readMeta (d, lg) true] else [])),
          if orc.renameFails then fs else fs.renameFile (d, g) (d, lg),
          true,
          orc.renameFails && orc.metaFails⟩ := by
  induction l with
  | nil => simp [firstHit] at h
  | cons g' rest ih =>
    by_cases hg : fs.hasFile (d, g') = true
    · have hgl : g' = g := by simpa [firstHit, hg] using h
      subst hgl
      refine ⟨[], ?_⟩
      by_cases hr : orc.renameFails = true
      · simp [probeLoop, probeEvents_nil, hg, hne, hr]
      · simp only [Bool.not_eq_true] at hr
        simp [probeLoop, probeEvents_nil, hg, hne, hr]
    · have hrest : firstHit fs d rest = some g := by
        simpa [firstHit, hg] using h
      obtain ⟨pre, hpre⟩ := ih hrest
      exact ⟨g' :: pre, by simp [probeLoop, probeEvents_cons, hg, hpre]⟩

/-- The generations whose paths the scan checks are exactly the candidate
list up to and including the first hit. -/
lemma probeLoop_probes (orc : AioOracle) (d lg : Nat) (fs : FSState) :
    ∀ l : List Nat,
      probedGens (probeLoop orc d lg fs l).events = probeUpToHit fs d l := by
  intro l
  induction l with
  | nil => rfl
  | cons g rest ih =>
    by_cases hg : fs.hasFile (d, g) = true
    · by_cases hgl : g = lg
      · subst hgl
        simp [probeLoop, probeUpToHit, hg, probedGens]
      · cases hr : orc.renameFails <;>
          simp [probeLoop, probeUpToHit, hg, hgl, hr, probedGens]
    · simp [probeLoop, probeUpToHit, hg, probedGens, ih]

/-- The scan never sends a response. -/
lemma probeLoop_sends (orc : AioOracle) (d lg : Nat) (fs : FSState) :
    ∀ l : List Nat, sends (probeLoop orc d lg fs l).events = [] := by
  intro l
  induction l with
  | nil => rfl
  | cons g rest ih =>
    by_cases hg : fs.hasFile (d, g) = true
    · by_cases hgl : g = lg
      · subst hgl
        simp [probeLoop, hg, sends]
      · cases hr : orc.renameFails <;> simp [probeLoop, hg, hgl, hr, sends]
    · simp [probeLoop, hg, sends, ih]

/-- The scan never issues a write. -/
lemma probeLoop_writes (orc : AioOracle) (d lg : Nat) (fs : FSState) :
    ∀ l : List Nat, writes (probeLoop orc d lg fs l).events = [] := by
  intro l
  induction l with
  | nil => rfl
  | cons g rest ih =>
    by_cases hg : fs.hasFile (d, g) = true
    · by_cases hgl : g = lg
      · subst hgl
        simp [probeLoop, hg, writes]
      · cases hr : orc.renameFails <;> simp [probeLoop, hg, hgl, hr, writes]
    · simp [probeLoop, hg, writes, ih]

/-- Every `aio` future created during the scan (rename, metadata read) is
awaited. -/
lemma probeLoop_awaitDiscipline (orc : AioOracle) (d lg : Nat) (fs : FSState) :
    ∀ l : List Nat,
      awaitDiscipline (probeLoop orc d lg fs l).events = true := by
  intro l
  induction l with
  | nil => rfl
  | cons g rest ih =>
    by_cases hg : fs.hasFile (d, g) = true
    · by_cases hgl : g = lg
      · subst hgl
        simp [probeLoop, hg, awaitDiscipline]
      · cases hr : orc.renameFails <;>
          simp [probeLoop, hg, hgl, hr, awaitDiscipline]
    · simp [probeLoop, hg, awaitDiscipline, ih]

/-- When nothing is found, the spec-side probe sequence is the whole
candidate list. -/
lemma probeUpToHit_of_firstHit_none (fs : FSState) (d : Nat) :
    ∀ {l : List Nat}, firstHit fs d l = none → probeUpToHit fs d l = l := by
  intro l
  induction l with
  | nil => intro _; rfl
  | cons g rest ih =>
    intro h
    by_cases hg : fs.hasFile (d, g) = true
    · simp [firstHit, hg] at h
    · have hrest : firstHit fs d rest = none := by simpa [firstHit, hg] using h
      simp [probeUpToHit, hg, ih hrest]

/-- In every branch of message processing, the probes recorded are those of the
scan: everything appended after the scan is a write or a send. -/
lemma processMessage_probes (ctx : Ctx) (gens : List Nat) (orc : AioOracle)
    (fs : FSState) (m : Message) {lg : Nat} (hl : gens.getLast? = some lg) :
    probedGens (processMessage ctx gens orc fs m).events =
      probeUpToHit fs (ctx.hash m.sg) (gens.reverse ++ [lg]) := by
  simp only [processMessage, hl]
  split
  · exact probeLoop_probes ..
  · split
    · split <;>
        simp [probedGens_append, probedGens, probeLoop_probes]
    · split
      · exact probeLoop_probes ..
      · split <;>
          simp [probedGens_append, probedGens, probeLoop_probes]

/-- The reverse of a list whose last element is `lg` starts with `lg`. -/
lemma reverse_eq_cons_of_getLast? {gens : List Nat} {lg : Nat}
    (hl : gens.getLast? = some lg) : ∃ t, gens.reverse = lg :: t := by
  cases hrev : gens.reverse with
  | nil =>
    have : gens = [] := by simpa using congrArg List.reverse hrev
    subst this
    simp at hl
  | cons a t =>
    have ha : gens.reverse.head? = some a := by rw [hrev]; rfl
    rw [List.head?_reverse, hl] at ha
    obtain rfl : lg = a := by injection ha
    exact ⟨t, rfl⟩

/-! ### Concrete inputs used by the witnesses -/

/-- Concrete collaborators: length hash, visible compression/encryption. -/
def ctxEx : Ctx :=
  ⟨fun s => s.length, fun s => .ok (0 :: s), fun s d => .ok (d :: s)⟩

/-- No environmental failures. -/
def orcEx : AioOracle := ⟨false, false, false⟩

/-- An empty store. -/
def fsEmpty : FSState := ⟨[]⟩

/-- A sample message: sequence id 7, payload `[1,2,3]`, no transforms,
response channel 5.  Its `ctxEx` digest is `3`. -/
def msgEx : Message := ⟨7, [1, 2, 3], ⟨false, false⟩, 5⟩

/-! ### Claims -/

/-- **C1**: for every received `Message`, the dedup lookup walks the
generation list from newest to oldest and then the current (newest)
generation once more: the sequence of generations whose chunk paths it
checks is the corresponding prefix of `current, next-older, …, oldest,
current` (up to the first hit), and when the digest is found nowhere the
probe sequence is exactly `current, next-older, …, oldest, current`. -/
theorem c1_probe_order (ctx : Ctx) (gens : List Nat) (orc : AioOracle)
    (fs : FSState) (m : Message) {lg : Nat} (hl : gens.getLast? = some lg) :
    probedGens (processMessage ctx gens orc fs m).events =
        probeUpToHit fs (ctx.hash m.sg) (gens.reverse ++ [lg]) ∧
      (firstHit fs (ctx.hash m.sg) (gens.reverse ++ [lg]) = none →
        probedGens (processMessage ctx gens orc fs m).events =
          gens.reverse ++ [lg]) := by
  refine ⟨processMessage_probes ctx gens orc fs m hl, fun hnone => ?_⟩
  rw [processMessage_probes ctx gens orc fs m hl]
  exact probeUpToHit_of_firstHit_none fs (ctx.hash m.sg) hnone

/-- Witness for C1: two generations `[0, 1]` (current `1`), empty store:
the probes are exactly `1, 0, 1`. -/
theorem c1_probe_order_witness :
    (([0, 1] : List Nat).getLast? = some 1) ∧
      probedGens (processMessage ctxEx [0, 1] orcEx fsEmpty msgEx).events =
        ([0, 1] : List Nat).reverse ++ [1] :=
  ⟨by decide,
    (c1_probe_order ctxEx [0, 1] orcEx fsEmpty msgEx (by decide)).2 (by decide)⟩

/-- **C8**: `ChunkProcessor::new` fails its assertion exactly when the
generation list is empty; with a non-empty list construction succeeds and
`gen_strings.last().unwrap()` (the unwraps in `run`) cannot fail. -/
theorem c8_nonempty_generations (gens : List Nat) :
    (chunkProcessorNew gens = none ↔ gens = []) ∧
      (gens ≠ [] → chunkProcessorNew gens = some gens) ∧
      (gens ≠ [] → gens.getLast?.isSome = true) := by
  refine ⟨?_, fun h => ?_, fun h => ?_⟩
  · cases gens with
    | nil => simp [chunkProcessorNew]
    | cons a t => simp [chunkProcessorNew, Nat.succ_le_succ]
  · cases gens with
    | nil => exact absurd rfl h
    | cons a t => simp [chunkProcessorNew, Nat.succ_le_succ]
  · simp [List.getLast?_isSome, h]

/-- Witness for C8: the singleton list `[4]` passes construction and its
last generation exists. -/
theorem c8_nonempty_generations_witness :
    (([4] : List Nat) ≠ []) ∧ chunkProcessorNew [4] = some [4] ∧
      (([4] : List Nat)).getLast?.isSome = true :=
  ⟨by decide, (c8_nonempty_generations [4]).2.1 (by decide),
    (c8_nonempty_generations [4]).2.2 (by decide)⟩

/-- **C9**: when `rx.recv()` returns `Err` (the queue is closed and
drained), the run loop returns cleanly: no panic, no further event (no
filesystem operation, no response) and the store untouched. -/
theorem c9_clean_shutdown (ctx : Ctx) (gens : List Nat) (fs : FSState) :
    runLoop ctx gens fs [] = ([], fs, false) := rfl

/-- In every branch, the responses sent while processing one message are:
none when the worker panicked, exactly `(chan, sg_id, digest)` otherwise. -/
lemma processMessage_sends (ctx : Ctx) (gens : List Nat) (orc : AioOracle)
    (fs : FSState) (m : Message) :
    sends (processMessage ctx gens orc fs m).events =
      (if (processMessage ctx gens orc fs m).panicked = true then []
       else [(m.respChan, m.sgId, ctx.hash m.sg)]) := by
  cases hl : gens.getLast? with
  | none => simp [processMessage, hl, sends]
  | some lg =>
    simp only [processMessage, hl]
    cases hp : (probeLoop orc (ctx.hash m.sg) lg fs (gens.reverse ++ [lg])).panicked
    · cases hf :
        (probeLoop orc (ctx.hash m.sg) lg fs (gens.reverse ++ [lg])).found
      · cases htr : transformChunk ctx m.dataType (ctx.hash m.sg) m.sg with
        | error e =>
          simp [sends, probeLoop_sends]
        | ok sgw =>
          cases hs : orc.sendFails <;>
            simp [hs, sends, sends_append, probeLoop_sends]
      · cases hs : orc.sendFails <;>
          simp [hs, sends, sends_append, probeLoop_sends]
    · simp [sends, probeLoop_sends]

/-- **C3**: for every `Message` the worker processes to completion (no
panic), exactly one `(sequence_id, digest)` pair is sent, on the response
channel of that message, and the digest is the hash of the original untransformed
payload — in every branch (found in current generation, found in an older
one, or newly written). -/
theorem c3_response_totality (ctx : Ctx) (gens : List Nat) (orc : AioOracle)
    (fs : FSState) (m : Message)
    (h : (processMessage ctx gens orc fs m).panicked = false) :
    sends (processMessage ctx gens orc fs m).events =
      [(m.respChan, m.sgId, ctx.hash m.sg)] := by
  rw [processMessage_sends, h]
  simp

/-- Witness for C3: the sample message on an empty store with a single
generation is processed without panic and answered once with digest 3 on
channel 5. -/
theorem c3_response_totality_witness :
    (processMessage ctxEx [4] orcEx fsEmpty msgEx).panicked = false ∧
      sends (processMessage ctxEx [4] orcEx fsEmpty msgEx).events =
        [(msgEx.respChan, msgEx.sgId, ctxEx.hash msgEx.sg)] :=
  ⟨by decide, c3_response_totality ctxEx [4] orcEx fsEmpty msgEx (by decide)⟩

/-- **C7**: when the digest is found in the current generation on the first
probe, processing performs no rename and no write: the trace is one probe
and the response, and the store is left exactly as it was. -/
theorem c7_duplicate_in_current (ctx : Ctx) (gens : List Nat)
    (orc : AioOracle) (fs : FSState) (m : Message) {lg : Nat}
    (hl : gens.getLast? = some lg)
    (hhit : fs.hasFile (ctx.hash m.sg, lg) = true)
    (hsend : orc.sendFails = false) :
    processMessage ctx gens orc fs m =
      ⟨[Event.probe (ctx.hash m.sg, lg),
        Event.send m.respChan m.sgId (ctx.hash m.sg)], fs, false⟩ := by
  obtain ⟨t, ht⟩ := reverse_eq_cons_of_getLast? hl
  simp only [processMessage, hl, ht, List.cons_append]
  simp [probeLoop, hhit, hsend]

/-- A store already holding the sample chunk in the current generation. -/
def fsCur : FSState := ⟨[((3, 1), [9])]⟩

/-- Witness for C7: with generations `[0, 1]` and the chunk already at
`(3, 1)`, the trace is a single probe plus the response and the store is
unchanged. -/
theorem c7_duplicate_in_current_witness :
    fsCur.hasFile (3, 1) = true ∧
      processMessage ctxEx [0, 1] orcEx fsCur msgEx =
        ⟨[Event.probe (ctxEx.hash msgEx.sg, 1),
          Event.send msgEx.respChan msgEx.sgId (ctxEx.hash msgEx.sg)],
          fsCur, false⟩ :=
  ⟨by decide,
    @c7_duplicate_in_current ctxEx [0, 1] orcEx fsCur msgEx 1 (by decide)
      (by decide) (by decide)⟩

/-- **C2**: when the chunk is first found in a generation older than the
current one, exactly one rename of its path to the current-generation path
is attempted; if the rename fails and the follow-up metadata read of the
destination succeeds, the failure is silently absorbed (no panic, store
untouched) and processing continues; if that metadata read also fails, the
worker panics without retrying and without responding. -/
theorem c2_rename_race (ctx : Ctx) (gens : List Nat) (orc : AioOracle)
    (fs : FSState) (m : Message) {lg g : Nat} (hl : gens.getLast? = some lg)
    (hfh : firstHit fs (ctx.hash m.sg) (gens.reverse ++ [lg]) = some g)
    (hne : g ≠ lg) (hsend : orc.sendFails = false) :
    renames (processMessage ctx gens orc fs m).events =
        [((ctx.hash m.sg, g), (ctx.hash m.sg, lg))] ∧
      (orc.renameFails = true →
        readMetas (processMessage ctx gens orc fs m).events =
          [(ctx.hash m.sg, lg)]) ∧
      (orc.renameFails = true → orc.metaFails = false →
        (processMessage ctx gens orc fs m).panicked = false ∧
          (processMessage ctx gens orc fs m).fs = fs) ∧
      (orc.renameFails = true → orc.metaFails = true →
        (processMessage ctx gens orc fs m).panicked = true ∧
          sends (processMessage ctx gens orc fs m).events = []) := by
  obtain ⟨pre, hpre⟩ :=
    probeLoop_of_firstHit_ne orc (ctx.hash m.sg) lg fs hfh hne
  cases hr : orc.renameFails <;> cases hm : orc.metaFails <;>
    simp [processMessage, hl, hpre, hr, hm, hsend, renames_append, renames,
      renames_probeEvents, readMetas_append, readMetas, readMetas_probeEvents,
      sends_append, sends, sends_probeEvents]

/-- A store holding the sample chunk only in the older generation `0`. -/
def fsOld : FSState := ⟨[((3, 0), [9])]⟩

/-- The benign-race environment: the rename fails but the follow-up
metadata read of the destination succeeds. -/
def orcRace : AioOracle := ⟨true, false, false⟩

/-- Witness for C2: generations `[0, 1]`, chunk only at `(3, 0)`, rename
loses the race: exactly one rename is attempted and the failure is
absorbed. -/
theorem c2_rename_race_witness :
    renames (processMessage ctxEx [0, 1] orcRace fsOld msgEx).events =
        [((3, 0), (3, 1))] ∧
      (processMessage ctxEx [0, 1] orcRace fsOld msgEx).panicked = false :=
  ⟨(@c2_rename_race ctxEx [0, 1] orcRace fsOld msgEx 1 0 (by decide)
      (by decide) (by decide) (by decide)).1,
    ((@c2_rename_race ctxEx [0, 1] orcRace fsOld msgEx 1 0 (by decide)
        (by decide) (by decide) (by decide)).2.2.1 rfl rfl).1⟩

/-- **C4**: in the not-found case the payload is compressed iff
`should_compress`, then encrypted iff `should_encrypt` with the digest as
the associated input (so the buffer is unchanged when both policies are
false), and the resulting buffer is written to the path resolved for
`(digest, current generation)`. -/
theorem c4_transform_and_write (ctx : Ctx) (gens : List Nat)
    (orc : AioOracle) (fs : FSState) (m : Message) {lg : Nat} {sgw : SG}
    (hl : gens.getLast? = some lg)
    (hnone : firstHit fs (ctx.hash m.sg) (gens.reverse ++ [lg]) = none)
    (htr : transformChunk ctx m.dataType (ctx.hash m.sg) m.sg =
      Except.ok sgw) :
    writes (processMessage ctx gens orc fs m).events =
        [((ctx.hash m.sg, lg), sgw)] ∧
      (processMessage ctx gens orc fs m).fs =
        fs.writeIdempotent (ctx.hash m.sg, lg) sgw ∧
      transformChunk ctx m.dataType (ctx.hash m.sg) m.sg =
        Except.bind
          (if m.dataType.shouldCompress then ctx.compress m.sg
            else Except.ok m.sg)
          (fun s1 =>
            if m.dataType.shouldEncrypt then ctx.encrypt s1 (ctx.hash m.sg)
            else Except.ok s1) ∧
      (m.dataType.shouldCompress = false → m.dataType.shouldEncrypt = false →
        sgw = m.sg) := by
  have hpre := probeLoop_of_firstHit_none orc (ctx.hash m.sg) lg fs hnone
  refine ⟨?_, ?_, ?_, ?_⟩
  · cases hs : orc.sendFails <;>
      simp [processMessage, hl, hpre, htr, hs, writes_append, writes,
        writes_probeEvents]
  · cases hs : orc.sendFails <;>
      simp [processMessage, hl, hpre, htr, hs]
  · cases hc : (if m.dataType.shouldCompress then ctx.compress m.sg
        else Except.ok m.sg) <;>
      simp [transformChunk, Except.bind, hc]
  · intro hb he
    simp [transformChunk, hb, he] at htr
    exact htr.symm

/-- A message whose data type requires both compression and encryption. -/
def msgBoth : Message := ⟨8, [1, 2, 3], ⟨true, true⟩, 6⟩

/-- Witness for C4: on an empty store with current generation `4`, the
payload `[1,2,3]` (digest 3) is compressed then encrypted by `ctxEx` to
`[3, 0, 1, 2, 3]` and written at `(3, 4)`. -/
theorem c4_transform_and_write_witness :
    writes (processMessage ctxEx [4] orcEx fsEmpty msgBoth).events =
        [((3, 4), [3, 0, 1, 2, 3])] ∧
      (processMessage ctxEx [4] orcEx fsEmpty msgBoth).fs =
        fsEmpty.writeIdempotent (3, 4) [3, 0, 1, 2, 3] :=
  ⟨(@c4_transform_and_write ctxEx [4] orcEx fsEmpty msgBoth 4 [3, 0, 1, 2, 3]
      (by decide) (by decide) rfl).1,
    (@c4_transform_and_write ctxEx [4] orcEx fsEmpty msgBoth 4 [3, 0, 1, 2, 3]
      (by decide) (by decide) rfl).2.1⟩

/-- **C6**: in the not-found case, if the compression or encryption
transform fails, the worker panics before issuing any write and before
sending any response, leaving the store untouched. -/
theorem c6_transform_error_fatal (ctx : Ctx) (gens : List Nat)
    (orc : AioOracle) (fs : FSState) (m : Message) {lg : Nat}
    (hl : gens.getLast? = some lg)
    (hnone : firstHit fs (ctx.hash m.sg) (gens.reverse ++ [lg]) = none)
    (htr : transformChunk ctx m.dataType (ctx.hash m.sg) m.sg =
      Except.error ()) :
    (processMessage ctx gens orc fs m).panicked = true ∧
      writes (processMessage ctx gens orc fs m).events = [] ∧
      sends (processMessage ctx gens orc fs m).events = [] ∧
      (processMessage ctx gens orc fs m).fs = fs := by
  have hpre := probeLoop_of_firstHit_none orc (ctx.hash m.sg) lg fs hnone
  simp [processMessage, hl, hpre, htr, writes_probeEvents, sends_probeEvents]

/-- Collaborators whose compressor always fails. -/
def ctxBadCompress : Ctx :=
  ⟨fun s => s.length, fun _ => .error (), fun s d => .ok (d :: s)⟩

/-- Witness for C6: with a failing compressor and a compressing data type,
the worker panics with no write and no response. -/
theorem c6_transform_error_fatal_witness :
    (processMessage ctxBadCompress [4] orcEx fsEmpty msgBoth).panicked =
        true ∧
      writes (processMessage ctxBadCompress [4] orcEx fsEmpty
          msgBoth).events = [] ∧
      sends (processMessage ctxBadCompress [4] orcEx fsEmpty
          msgBoth).events = [] :=
  ⟨(@c6_transform_error_fatal ctxBadCompress [4] orcEx fsEmpty msgBoth 4
      (by decide) (by decide) rfl).1,
    (@c6_transform_error_fatal ctxBadCompress [4] orcEx fsEmpty msgBoth 4
      (by decide) (by decide) rfl).2.1,
    (@c6_transform_error_fatal ctxBadCompress [4] orcEx fsEmpty msgBoth 4
      (by decide) (by decide) rfl).2.2.1⟩

/-- **C10**: the scan stops at the first generation holding the chunk, so
processing one message attempts at most one rename, and every path other
than the endpoints of that rename and the target of the (at most one) write
is left untouched in the store — in particular copies of the digest in
generations older than the first hit. -/
theorem c10_at_most_one_rename_frame (ctx : Ctx) (gens : List Nat)
    (orc : AioOracle) (fs : FSState) (m : Message) :
    (renames (processMessage ctx gens orc fs m).events).length ≤ 1 ∧
      ∀ p : Path,
        (∀ pr ∈ renames (processMessage ctx gens orc fs m).events,
          p ≠ pr.1 ∧ p ≠ pr.2) →
        (∀ w ∈ writes (processMessage ctx gens orc fs m).events, p ≠ w.1) →
        (processMessage ctx gens orc fs m).fs.lookup p = fs.lookup p := by
  cases hl : gens.getLast? with
  | none =>
    constructor
    · simp [processMessage, hl, renames]
    · intro p _ _
      simp [processMessage, hl]
  | some lg =>
    cases hfh : firstHit fs (ctx.hash m.sg) (gens.reverse ++ [lg]) with
    | none =>
      have hpre := probeLoop_of_firstHit_none orc (ctx.hash m.sg) lg fs hfh
      cases htr : transformChunk ctx m.dataType (ctx.hash m.sg) m.sg with
      | error e =>
        constructor
        · simp [processMessage, hl, hpre, htr, renames_probeEvents]
        · intro p _ _
          simp [processMessage, hl, hpre, htr]
      | ok sgw =>
        cases hs : orc.sendFails
        · constructor
          · simp [processMessage, hl, hpre, htr, hs, renames_append,
              renames, renames_probeEvents]
          · intro p _ hw
            have hp : p ≠ (ctx.hash m.sg, lg) := by
              refine hw ((ctx.hash m.sg, lg), sgw) ?_
              simp [processMessage, hl, hpre, htr, hs, writes_append,
                writes, writes_probeEvents]
            have : (processMessage ctx gens orc fs m).fs =
                fs.writeIdempotent (ctx.hash m.sg, lg) sgw := by
              simp [processMessage, hl, hpre, htr, hs]
            rw [this]
            exact FSState.lookup_writeIdempotent_ne fs _ sgw p hp
        · constructor
          · simp [processMessage, hl, hpre, htr, hs, renames_append,
              renames, renames_probeEvents]
          · intro p _ hw
            have hp : p ≠ (ctx.hash m.sg, lg) := by
              refine hw ((ctx.hash m.sg, lg), sgw) ?_
              simp [processMessage, hl, hpre, htr, hs, writes_append,
                writes, writes_probeEvents]
            have : (processMessage ctx gens orc fs m).fs =
                fs.writeIdempotent (ctx.hash m.sg, lg) sgw := by
              simp [processMessage, hl, hpre, htr, hs]
            rw [this]
            exact FSState.lookup_writeIdempotent_ne fs _ sgw p hp
    | some g =>
      by_cases hgl : g = lg
      · subst hgl
        obtain ⟨pre, hpre⟩ :=
          probeLoop_of_firstHit_last orc (ctx.hash m.sg) g fs hfh
        cases hs : orc.sendFails
        · constructor
          · simp [processMessage, hl, hpre, hs, renames_append, renames,
              renames_probeEvents]
          · intro p _ _
            simp [processMessage, hl, hpre, hs]
        · constructor
          · simp [processMessage, hl, hpre, hs, renames_append, renames,
              renames_probeEvents]
          · intro p _ _
            simp [processMessage, hl, hpre, hs]
      · obtain ⟨pre, hpre⟩ :=
          probeLoop_of_firstHit_ne orc (ctx.hash m.sg) lg fs hfh hgl
        cases hr : orc.renameFails
        · -- rename succeeded: the store changes only by that rename
          cases hs : orc.sendFails
          · constructor
            · simp [processMessage, hl, hpre, hr, hs, renames_append,
                renames, renames_probeEvents]
            · intro p hren _
              have hp :
                  p ≠ (ctx.hash m.sg, g) ∧ p ≠ (ctx.hash m.sg, lg) := by
                refine hren ((ctx.hash m.sg, g), (ctx.hash m.sg, lg)) ?_
                simp [processMessage, hl, hpre, hr, hs, renames_append,
                  renames, renames_probeEvents]
              have : (processMessage ctx gens orc fs m).fs =
                  fs.renameFile (ctx.hash m.sg, g) (ctx.hash m.sg, lg) := by
                simp [processMessage, hl, hpre, hr, hs]
              rw [this]
              exact FSState.lookup_renameFile_ne fs _ _ p hp.1 hp.2
          · constructor
            · simp [processMessage, hl, hpre, hr, hs, renames_append,
                renames, renames_probeEvents]
            · intro p hren _
              have hp :
                  p ≠ (ctx.hash m.sg, g) ∧ p ≠ (ctx.hash m.sg, lg) := by
                refine hren ((ctx.hash m.sg, g), (ctx.hash m.sg, lg)) ?_
                simp [processMessage, hl, hpre, hr, hs, renames_append,
                  renames, renames_probeEvents]
              have : (processMessage ctx gens orc fs m).fs =
                  fs.renameFile (ctx.hash m.sg, g) (ctx.hash m.sg, lg) := by
                simp [processMessage, hl, hpre, hr, hs]
              rw [this]
              exact FSState.lookup_renameFile_ne fs _ _ p hp.1 hp.2
        · -- rename failed: the store is untouched
          cases hm : orc.metaFails <;> cases hs : orc.sendFails
          all_goals constructor
          all_goals
            simp [processMessage, hl, hpre, hr, hm, hs, renames_append,
              renames, renames_probeEvents]

/-- Witness for C10: processing the duplicate submission over the store that
holds the chunk only in generation `0` attempts exactly one rename and
leaves the unrelated path `(9, 9)` untouched. -/
theorem c10_at_most_one_rename_frame_witness :
    (renames (processMessage ctxEx [0, 1] orcEx fsOld msgEx).events).length ≤
        1 ∧
      (processMessage ctxEx [0, 1] orcEx fsOld msgEx).fs.lookup (9, 9) =
        fsOld.lookup (9, 9) :=
  ⟨(c10_at_most_one_rename_frame ctxEx [0, 1] orcEx fsOld msgEx).1,
    (c10_at_most_one_rename_frame ctxEx [0, 1] orcEx fsOld msgEx).2 (9, 9)
      (by decide) (by decide)⟩

/-- **C5 (amended)**: the worker awaits (`.wait()`) each rename and each
post-rename metadata read before proceeding, but the idempotent write of a
new chunk is issued without being awaited — in every trace, rename and
metadata-read events are awaited and write events are not. -/
theorem c5_await_discipline (ctx : Ctx) (gens : List Nat) (orc : AioOracle)
    (fs : FSState) (m : Message) :
    awaitDiscipline (processMessage ctx gens orc fs m).events = true := by
  cases hl : gens.getLast? with
  | none => simp [processMessage, hl, awaitDiscipline]
  | some lg =>
    simp only [processMessage, hl]
    cases hp :
      (probeLoop orc (ctx.hash m.sg) lg fs (gens.reverse ++ [lg])).panicked
    · cases hf :
        (probeLoop orc (ctx.hash m.sg) lg fs (gens.reverse ++ [lg])).found
      · cases htr : transformChunk ctx m.dataType (ctx.hash m.sg) m.sg with
        | error e => simp [awaitDiscipline, probeLoop_awaitDiscipline]
        | ok sgw =>
          cases hs : orc.sendFails <;>
            simp [hs, awaitDiscipline, awaitDiscipline_append,
              probeLoop_awaitDiscipline]
      · cases hs : orc.sendFails <;>
          simp [hs, awaitDiscipline, awaitDiscipline_append,
            probeLoop_awaitDiscipline]
    · simp [awaitDiscipline, probeLoop_awaitDiscipline]

/-- **C5 (counterexample)**: processing a fresh chunk issues a write whose
future is never awaited, and the response is sent afterwards anyway — the
claim that every asynchronous filesystem operation (in particular the
idempotent write) is awaited before proceeding is false on this trace. -/
theorem c5_write_not_awaited :
    (processMessage ctxEx [4] orcEx fsEmpty msgEx).events =
        [Event.probe (3, 4), Event.probe (3, 4),
          Event.write (3, 4) [1, 2, 3] false, Event.send 5 7 3] ∧
      allAioAwaited (processMessage ctxEx [4] orcEx fsEmpty msgEx).events =
        false := by decide

end Rdedup
